import Mathlib

/-!
Verification of the crawler + SEO heuristic core of the site checker
(sources: src/utils.py, src/app.py, src/checkers.py).

Python strings are modelled as `List Char` (`Str`).  Pure helpers of the
source are translated function by function; network effects are modelled
by passing the HTTP response (or an error) as an explicit argument, and
Python exceptions by `Except Unit`.
-/

set_option maxRecDepth 4000

abbrev Str := List Char

def strL (s : String) : Str := s.toList

/-- Python `str.lower()` restricted to ASCII letters (all characters the
source compares against are ASCII or caseless Japanese, which `lower`
leaves unchanged). -/
def pyLowerChar (c : Char) : Char :=
  if 'A' ≤ c ∧ c ≤ 'Z' then Char.ofNat (c.toNat + 32) else c

def pyLowerStr (l : Str) : Str := l.map pyLowerChar

/-- Python `s.startswith(p)`. -/
def startswith (l p : Str) : Bool := decide (l.take p.length = p)

/-- Python `s.endswith(s2)`. -/
def endswith (l s : Str) : Bool := decide (l.drop (l.length - s.length) = s)

/-- Python `s.rstrip(c)` for a single strip character. -/
def rstripChar (c : Char) (l : Str) : Str :=
  ((l.reverse.dropWhile (fun x => x = c))).reverse

/-- Python whitespace (ASCII part) used by `str.strip()` / `str.split()`. -/
def pyIsSpace (c : Char) : Bool :=
  c = ' ' ∨ c = '\t' ∨ c = '\n' ∨ c = '\r' ∨ c.toNat = 11 ∨ c.toNat = 12

/-- Python `str.strip()`. -/
def pyStrip (l : Str) : Str :=
  ((l.dropWhile pyIsSpace).reverse.dropWhile pyIsSpace).reverse

/-- Accumulator pass of Python `str.split()`: `cur` is the reversed
current word. -/
def pySplitWsAux : Str → Str → List Str
  | [], cur => if cur = [] then [] else [cur.reverse]
  | c :: rest, cur =>
    if pyIsSpace c then
      if cur = [] then pySplitWsAux rest []
      else cur.reverse :: pySplitWsAux rest []
    else pySplitWsAux rest (c :: cur)

/-- Python `str.split()` (split on whitespace runs, no empty pieces). -/
def pySplitWs (l : Str) : List Str := pySplitWsAux l []

/-- Accumulator pass of Python `str.split(sep)`: `cur` is the reversed
current piece. -/
def splitCharAux (sep : Char) : Str → Str → List Str
  | [], cur => [cur.reverse]
  | c :: rest, cur =>
    if c = sep then cur.reverse :: splitCharAux sep rest []
    else splitCharAux sep rest (c :: cur)

/-- Python `str.split(sep)` for a one-character separator. -/
def splitChar (sep : Char) (l : Str) : List Str := splitCharAux sep l []

/-- Python `sep.join(pieces)` for a one-character separator. -/
def joinChar (sep : Char) (xs : List Str) : Str := List.intercalate [sep] xs

/-- Fuelled scan for the non-overlapping occurrence count (the fuel
`t.length` always suffices: each step consumes at least one character). -/
def countNOGo (k : Str) : Nat → Str → Nat
  | 0, _ => 0
  | _ + 1, [] => 0
  | fuel + 1, c :: rest =>
    if startswith (c :: rest) k then 1 + countNOGo k fuel (rest.drop (k.length - 1))
    else countNOGo k fuel rest

/-- Non-overlapping occurrence count: `len(re.findall(re.escape(k), t))`. -/
def countNO (k t : Str) : Nat := countNOGo k t.length t

/-- Number of positions where `k` occurs in `t` (overlaps allowed). -/
def countSub (k : Str) (t : Str) : Nat :=
  t.tails.countP (fun suf => startswith suf k)

/-- `needle in hay` (Python substring test). -/
def substrOf (needle hay : Str) : Bool :=
  hay.tails.any (fun t => startswith t needle)

/-! ## `urllib.parse.unquote` (percent-decoding, UTF-8)

CPython turns each maximal chunk of ASCII characters / `%XX` escapes into
bytes and decodes them as UTF-8 with `errors='replace'`; non-ASCII
characters pass through unchanged.  We model this with a token stream:
ASCII characters and valid `%XX` escapes become bytes, other characters
pass through, and the byte runs are decoded by an incremental UTF-8
decoder (replacement character on invalid sequences). -/

inductive UTok where
  | byte (b : Nat)
  | chr (c : Char)
deriving DecidableEq

def hexDigit (c : Char) : Option Nat :=
  if '0' ≤ c ∧ c ≤ '9' then some (c.toNat - 48)
  else if 'a' ≤ c ∧ c ≤ 'f' then some (c.toNat - 87)
  else if 'A' ≤ c ∧ c ≤ 'F' then some (c.toNat - 55)
  else none

def percentTokens : Str → List UTok
  | [] => []
  | '%' :: h1 :: h2 :: rest2 =>
    match hexDigit h1, hexDigit h2 with
    | some a, some b => .byte (16 * a + b) :: percentTokens rest2
    | _, _ => .byte 37 :: percentTokens (h1 :: h2 :: rest2)
  | '%' :: rest => .byte 37 :: percentTokens rest
  | c :: rest =>
    (if c.toNat < 128 then UTok.byte c.toNat else UTok.chr c) :: percentTokens rest

/-- U+FFFD replacement character. -/
def repl : Char := Char.ofNat 0xFFFD

def contVal (b : Nat) : Option Nat :=
  if 128 ≤ b ∧ b < 192 then some (b - 128) else none

/-- One UTF-8 decoding step after reading lead byte `b`: the emitted
character and how many further tokens are consumed. -/
def utf8Step (b : Nat) (t : List UTok) : Char × Nat :=
  if b < 128 then (Char.ofNat b, 0)
  else if 194 ≤ b ∧ b ≤ 223 then
    match t with
    | .byte b2 :: _ =>
      match contVal b2 with
      | some v => (Char.ofNat ((b - 192) * 64 + v), 1)
      | none => (repl, 0)
    | _ => (repl, 0)
  else if 224 ≤ b ∧ b ≤ 239 then
    match t with
    | .byte b2 :: .byte b3 :: _ =>
      match contVal b2, contVal b3 with
      | some v2, some v3 => (Char.ofNat ((b - 224) * 4096 + v2 * 64 + v3), 2)
      | _, _ => (repl, 0)
    | _ => (repl, 0)
  else if 240 ≤ b ∧ b ≤ 244 then
    match t with
    | .byte b2 :: .byte b3 :: .byte b4 :: _ =>
      match contVal b2, contVal b3, contVal b4 with
      | some v2, some v3, some v4 =>
        (Char.ofNat ((b - 240) * 262144 + v2 * 4096 + v3 * 64 + v4), 3)
      | _, _, _ => (repl, 0)
    | _ => (repl, 0)
  else (repl, 0)

/-- Fuelled token-stream decoder (the fuel `l.length` always suffices:
each step consumes at least one token). -/
def utf8DecodeGo : Nat → List UTok → Str
  | 0, _ => []
  | _ + 1, [] => []
  | fuel + 1, .chr c :: t => c :: utf8DecodeGo fuel t
  | fuel + 1, .byte b :: t =>
    let s := utf8Step b t
    s.1 :: utf8DecodeGo fuel (t.drop s.2)

def utf8Decode (l : List UTok) : Str := utf8DecodeGo l.length l

/-- `urllib.parse.unquote(url, encoding='utf-8')` (src/utils.py line 7).
CPython short-circuits when no percent sign occurs. -/
def unquote (l : Str) : Str :=
  if '%' ∈ l then utf8Decode (percentTokens l) else l

/-! ## `normalize_url` (src/utils.py lines 4-21 = src/app.py lines 121-138) -/

/-- The `index.html` stripping step (lines 10-13).  Note the source slices
`[:-10]` after a `/index.html` suffix (removing the 10 characters of
`index.html`, keeping the slash) and `[:-9]` after a bare `index.html`
suffix (removing only 9 characters). -/
def stripIndex (d : Str) : Str :=
  if endswith (pyLowerStr d) (strL "/index.html") then d.take (d.length - 10)
  else if endswith (pyLowerStr d) (strL "index.html") then d.take (d.length - 9)
  else d

/-- The trailing-slash step (lines 15-21). -/
def slashRule (d : Str) : Str :=
  if endswith (pyLowerStr d) (strL ".html") then d
  else if endswith d (strL "/") = false then d ++ strL "/"
  else d

/-- `normalize_url` (src/utils.py lines 4-21). -/
def normalize_url (url : Str) : Str := slashRule (stripIndex (unquote url))

/-! ## `urllib.parse`: urlsplit / urlparse / urljoin / parse_qs

Modelled from CPython's `urllib/parse.py` (the library the source calls);
`ValueError` (unbalanced IPv6 bracket in the netloc) is modelled as
`Except.error ()`. -/

structure UrlParts where
  scheme : Str
  netloc : Str
  path : Str
  params : Str
  query : Str
  fragment : Str
deriving DecidableEq

def usesRelative : List Str :=
  [strL "", strL "ftp", strL "http", strL "gopher", strL "nntp", strL "imap",
   strL "wais", strL "file", strL "https", strL "shttp", strL "mms",
   strL "prospero", strL "rtsp", strL "rtspu", strL "sftp", strL "svn",
   strL "svn+ssh", strL "ws", strL "wss"]

def usesNetloc : List Str :=
  [strL "", strL "ftp", strL "http", strL "gopher", strL "nntp", strL "telnet",
   strL "imap", strL "wais", strL "file", strL "mms", strL "https", strL "shttp",
   strL "snews", strL "prospero", strL "rtsp", strL "rtspu", strL "rsync",
   strL "svn", strL "svn+ssh", strL "sftp", strL "nfs", strL "git",
   strL "git+ssh", strL "ws", strL "wss", strL "itms-services"]

def usesParams : List Str :=
  [strL "", strL "ftp", strL "hdl", strL "prospero", strL "http", strL "imap",
   strL "https", strL "shttp", strL "rtsp", strL "rtspu", strL "sip",
   strL "sips", strL "mms", strL "sftp", strL "tel"]

def schemeChar (c : Char) : Bool :=
  c.isAlpha ∨ c.isDigit ∨ c = '+' ∨ c = '-' ∨ c = '.'

def splitFragQuery (scheme netloc rest2 : Str) : UrlParts :=
  let u3 := if '#' ∈ rest2 then rest2.takeWhile (fun c => c ≠ '#') else rest2
  let frag := if '#' ∈ rest2 then (rest2.dropWhile (fun c => c ≠ '#')).drop 1 else []
  let path := if '?' ∈ u3 then u3.takeWhile (fun c => c ≠ '?') else u3
  let query := if '?' ∈ u3 then (u3.dropWhile (fun c => c ≠ '?')).drop 1 else []
  ⟨scheme, netloc, path, [], query, frag⟩

/-- `urllib.parse.urlsplit(url, scheme=defScheme, allow_fragments=True)`. -/
def pyUrlsplit (url0 defScheme : Str) : Except Unit UrlParts :=
  let url := url0.filter (fun c => !(c = '\t' ∨ c = '\r' ∨ c = '\n'))
  let i := url.findIdx (fun c => c = ':')
  let hasScheme := 0 < i ∧ i < url.length ∧ (url.headD ' ').isAlpha ∧
      (url.headD ' ').toNat < 128 ∧ ((url.take i).drop 1).all schemeChar
  let scheme := if hasScheme then pyLowerStr (url.take i) else defScheme
  let rest := if hasScheme then url.drop (i + 1) else url
  if startswith rest (strL "//") then
    let after := rest.drop 2
    let netloc := after.takeWhile (fun c => !(c = '/' ∨ c = '?' ∨ c = '#'))
    let rest2 := after.dropWhile (fun c => !(c = '/' ∨ c = '?' ∨ c = '#'))
    if ('[' ∈ netloc ∧ ']' ∉ netloc) ∨ (']' ∈ netloc ∧ '[' ∉ netloc) then .error ()
    else .ok (splitFragQuery scheme netloc rest2)
  else .ok (splitFragQuery scheme [] rest)

/-- `urllib.parse._splitparams`. -/
def splitparams (p : Str) : Str × Str :=
  if '/' ∈ p then
    let tl := (p.reverse.takeWhile (fun c => c ≠ '/')).reverse
    if ';' ∈ tl then
      (p.take (p.length - tl.length) ++ tl.takeWhile (fun c => c ≠ ';'),
       (tl.dropWhile (fun c => c ≠ ';')).drop 1)
    else (p, [])
  else if ';' ∈ p then
    (p.takeWhile (fun c => c ≠ ';'), (p.dropWhile (fun c => c ≠ ';')).drop 1)
  else (p, [])

/-- `urllib.parse.urlparse(url, scheme=defScheme)`. -/
def pyUrlparse (url defScheme : Str) : Except Unit UrlParts :=
  match pyUrlsplit url defScheme with
  | .error e => .error e
  | .ok sp =>
    if sp.scheme ∈ usesParams ∧ ';' ∈ sp.path then
      .ok { sp with path := (splitparams sp.path).1, params := (splitparams sp.path).2 }
    else .ok sp

/-- `urllib.parse.urlunsplit`. -/
def pyUrlunsplit (p : UrlParts) : Str :=
  let url0 := p.path
  let url1 :=
    if p.netloc ≠ [] ∨ (url0 ≠ [] ∧ startswith url0 (strL "//")) then
      strL "//" ++ p.netloc ++
        (if url0 ≠ [] ∧ startswith url0 (strL "/") = false then strL "/" ++ url0 else url0)
    else url0
  let url2 := if p.scheme ≠ [] then p.scheme ++ [':'] ++ url1 else url1
  let url3 := if p.query ≠ [] then url2 ++ ['?'] ++ p.query else url2
  if p.fragment ≠ [] then url3 ++ ['#'] ++ p.fragment else url3

/-- `urllib.parse.urlunparse`. -/
def pyUrlunparse (p : UrlParts) : Str :=
  if p.params ≠ [] then pyUrlunsplit { p with path := p.path ++ [';'] ++ p.params }
  else pyUrlunsplit p

/-- `urllib.parse.urljoin(base, url)`. -/
def pyUrljoin (base url : Str) : Except Unit Str :=
  if base = [] then .ok url
  else if url = [] then .ok base
  else
    match pyUrlparse base [] with
    | .error e => .error e
    | .ok b =>
      match pyUrlparse url b.scheme with
      | .error e => .error e
      | .ok u =>
        if u.scheme ≠ b.scheme ∨ u.scheme ∉ usesRelative then .ok url
        else
          let netloc :=
            if u.scheme ∈ usesNetloc then
              (if u.netloc ≠ [] then u.netloc else b.netloc)
            else u.netloc
          if u.scheme ∈ usesNetloc ∧ u.netloc ≠ [] then .ok (pyUrlunparse u)
          else if u.path = [] ∧ u.params = [] then
            let q := if u.query = [] then b.query else u.query
            .ok (pyUrlunparse ⟨u.scheme, netloc, b.path, b.params, q, u.fragment⟩)
          else
            let baseParts0 := splitChar '/' b.path
            let baseParts :=
              if baseParts0.getLast? ≠ some [] then baseParts0.dropLast else baseParts0
            let segs0 :=
              if startswith u.path (strL "/") then splitChar '/' u.path
              else baseParts ++ splitChar '/' u.path
            let segs :=
              if 2 ≤ segs0.length then
                segs0.take 1 ++ ((segs0.drop 1).dropLast.filter (fun s => s ≠ [])) ++
                  segs0.drop (segs0.length - 1)
              else segs0
            let res0 := segs.foldl (fun acc s =>
                if s = strL ".." then acc.dropLast
                else if s = strL "." then acc
                else acc ++ [s]) []
            let res1 :=
              if segs.getLast? = some (strL "..") ∨ segs.getLast? = some (strL ".") then
                res0 ++ [[]]
              else res0
            let path0 := joinChar '/' res1
            let path1 := if path0 = [] then strL "/" else path0
            .ok (pyUrlunparse ⟨u.scheme, netloc, path1, u.params, u.query, u.fragment⟩)

def plusToSpace (c : Char) : Char := if c = '+' then ' ' else c

/-- The keys produced by `urllib.parse.parse_qs(query)` (default options:
chunks without `=` and chunks with an empty value are dropped). -/
def pyParseQsKeys (qs : Str) : List Str :=
  (splitChar '&' qs).filterMap (fun chunk =>
    if chunk = [] then none
    else if '=' ∈ chunk then
      let name := chunk.takeWhile (fun c => c ≠ '=')
      let value := (chunk.dropWhile (fun c => c ≠ '=')).drop 1
      if value ≠ [] then some (unquote (name.map plusToSpace)) else none
    else none)

/-! ## Link extraction (src/utils.py 23-79, src/app.py 484-548) -/

/-- `is_anchor_link` (src/utils.py 27-29). -/
def is_anchor_link (url : Str) : Bool := '#' ∈ url

def preview_params : List Str :=
  [strL "preview", strL "preview_id", strL "preview_nonce", strL "_thumbnail_id"]

/-- `is_preview_url` (src/utils.py 36-43). -/
def is_preview_url (url : Str) : Except Unit Bool :=
  match pyUrlparse url [] with
  | .error e => .error e
  | .ok p => .ok (preview_params.any (fun q => q ∈ pyParseQsKeys p.query))

/-- One `a`/`frame`/`iframe` element of the parsed page: its `href` and
`src` attributes (`[]` = attribute absent or empty, which Python treats
identically through truthiness). -/
structure Elem where
  href : Str
  src : Str
deriving DecidableEq

/-- One iteration of the link loop of `get_all_links` (src/utils.py 50-75):
`some l` when the element contributes link `l`, `none` when it is skipped. -/
def processElem (url dom : Str) (e : Elem) : Except Unit (Option Str) :=
  let href := if e.href ≠ [] then e.href else e.src
  if href = [] then .ok none
  else
    match pyUrljoin url href with
    | .error er => .error er
    | .ok absu =>
      match pyUrlparse absu [] with
      | .error er => .error er
      | .ok p =>
        if endswith (pyLowerStr p.path) (strL "index.html") then .ok none
        else
          match is_preview_url absu with
          | .error er => .error er
          | .ok prev =>
            if p.netloc = dom ∧ is_anchor_link absu = false ∧
               endswith (pyLowerStr absu) (strL ".pdf") = false ∧ prev = false then
              let nrm := rstripChar '/' absu
              .ok (some (if endswith (pyLowerStr nrm) (strL ".html") then nrm
                         else nrm ++ strL "/"))
            else .ok none

/-- Insertion into a Python set modelled as a duplicate-free list. -/
def insertSet (acc : List Str) (x : Str) : List Str :=
  if x ∈ acc then acc else acc ++ [x]

def linksLoop (url dom : Str) : List Elem → List Str → Except Unit (List Str)
  | [], acc => .ok acc
  | e :: rest, acc =>
    match processElem url dom e with
    | .error er => .error er
    | .ok none => linksLoop url dom rest acc
    | .ok (some l) => linksLoop url dom rest (insertSet acc l)

/-- `get_all_links` (src/utils.py 45-79): the whole body runs inside
`try: ... except Exception: return set()`. -/
def get_all_links (url dom : Str) (elems : List Elem) : List Str :=
  match linksLoop url dom elems [] with
  | .ok s => s
  | .error _ => []

/-! ## Heuristic checkers (src/checkers.py) -/

inductive HTag where
  | h1 | h2 | h3 | h4 | h5 | h6
deriving DecidableEq

/-- `int(heading.name[1])`. -/
def HTag.level : HTag → Nat
  | .h1 => 1 | .h2 => 2 | .h3 => 3 | .h4 => 4 | .h5 => 5 | .h6 => 6

def HTag.tagName : HTag → Str
  | .h1 => strL "h1" | .h2 => strL "h2" | .h3 => strL "h3"
  | .h4 => strL "h4" | .h5 => strL "h5" | .h6 => strL "h6"

structure Heading where
  tag : HTag
  text : Str
deriving DecidableEq

/-- `contains_japanese` (src/utils.py 31-34). -/
def contains_japanese (t : Str) : Bool :=
  t.any (fun c => (0x3040 ≤ c.toNat ∧ c.toNat ≤ 0x309F) ∨
                  (0x30A0 ≤ c.toNat ∧ c.toNat ≤ 0x30FF) ∨
                  (0x4E00 ≤ c.toNat ∧ c.toNat ≤ 0x9FFF))

/-- Character class of `^[a-zA-Z0-9\s\-_.,!?]*$` (`\s` modelled by its
ASCII part, which covers every character the checks compare). -/
def englishOnlyChar (c : Char) : Bool :=
  c.isAlpha ∨ c.isDigit ∨ pyIsSpace c ∨ c = '-' ∨ c = '_' ∨ c = '.' ∨
  c = ',' ∨ c = '!' ∨ c = '?'

def natStr (n : Nat) : Str := Nat.toDigits 10 n

def jumpMsg (prev cur : Nat) (txt : Str) : Str :=
  strL "h" ++ natStr prev ++ strL "からh" ++ natStr cur ++
  strL "に飛んでいます（" ++ txt ++ strL "）"

def firstMsg (cur : Nat) (txt : Str) : Str :=
  strL "最初の見出しがh1ではなくh" ++ natStr cur ++ strL "です（" ++ txt ++ strL "）"

/-- The heading loop of `check_heading_order` (src/checkers.py 129-153),
carrying `prev_level` and the 1-based counter `i`. -/
def headingLoop : Nat → Nat → List Heading → List Str × List Str
  | _, _, [] => ([], [])
  | prev, i, h :: hs =>
    let cur := h.tag.level
    let txt := pyStrip h.text
    let issue : List Str :=
      if 0 < prev then
        (if 1 < cur - prev ∧ prev < cur then [jumpMsg prev cur txt] else [])
      else if cur ≠ 1 ∧ i = 1 then [firstMsg cur txt] else []
    let eng : List Str :=
      if txt ≠ [] ∧ contains_japanese txt = false ∧ txt.all englishOnlyChar then
        [h.tag.tagName ++ strL ": " ++ txt]
      else []
    let r := headingLoop cur (i + 1) hs
    (issue ++ r.1, eng ++ r.2)

/-- `check_heading_order` (src/checkers.py 122-160 = src/app.py 145-183):
returns (numbered heading issues, english-only headings). -/
def check_heading_order (hs : List Heading) : List Str × List Str :=
  let r := headingLoop 0 1 hs
  (r.1.mapIdx (fun i iss => natStr (i + 1) ++ strL ": " ++ iss), r.2)

/-- The spec's wording of the heading-order rule (§4.3b): a later heading
is flagged iff it jumps more than one level above its predecessor. -/
def specJumps : Nat → List Heading → List Str
  | _, [] => []
  | prev, h :: hs =>
    (if prev < h.tag.level ∧ 1 < h.tag.level - prev then
       [jumpMsg prev h.tag.level (pyStrip h.text)]
     else []) ++ specJumps h.tag.level hs

/-- The spec's wording of the heading-order rule (§4.3b): the first
heading is flagged iff its level is not 1, later ones per `specJumps`. -/
def specHeadingIssues : List Heading → List Str
  | [] => []
  | h :: hs =>
    (if h.tag.level ≠ 1 then [firstMsg h.tag.level (pyStrip h.text)] else []) ++
    specJumps h.tag.level hs

/-- One `img` element: `src`, `srcset`, `alt` attributes (`[]` = absent or
empty, identical under Python truthiness / the `get('alt', '')` default). -/
structure Img where
  src : Str
  srcset : Str
  alt : Str
deriving DecidableEq

/-- `srcset.split(',')[0].strip().split(' ')[0]` (src/checkers.py 186). -/
def firstSrcsetUrl (ss : Str) : Str :=
  (splitChar ' ' (pyStrip ((splitChar ',' ss).headD []))).headD []

/-- Source selection of the image loop (src/checkers.py 178-186). -/
def imgSource (img : Img) : Str :=
  if img.src ≠ [] then img.src
  else if img.srcset ≠ [] then firstSrcsetUrl img.srcset
  else []

/-- `'/'.join(url.split('/')[:3])` (src/checkers.py 172). -/
def baseUrlOf (url : Str) : Str := joinChar '/' ((splitChar '/' url).take 3)

/-- Image-source resolution (src/checkers.py 194-203). -/
def resolveSrc (base src : Str) : Str :=
  if startswith src (strL "/") then base ++ src
  else if startswith src (strL "../") then
    base ++ strL "/" ++ joinChar '/' ((splitChar '/' src).drop 1)
  else if startswith src (strL "http://") = false ∧
          startswith src (strL "https://") = false then
    base ++ strL "/" ++ src
  else src

/-- The spec's wording of image-source resolution (§4.3c, claim C8): a
`/`-rooted source becomes origin + source, a `../`-relative source drops
the three-character `../` prefix and attaches the remainder to the origin
after a `/`, a bare-relative source becomes origin + `/` + source. -/
def resolveSrcSpec (base src : Str) : Str :=
  if startswith src (strL "/") then base ++ src
  else if startswith src (strL "../") then base ++ strL "/" ++ src.drop 3
  else if startswith src (strL "http://") = false ∧
          startswith src (strL "https://") = false then
    base ++ strL "/" ++ src
  else src

/-- The image loop of `check_image_alt` (src/checkers.py 177-206),
accumulating `total_images` and `images_without_alt`. -/
def imgScan (base : Str) : List Img → Nat → List Str → Nat × List Str
  | [], total, acc => (total, acc)
  | img :: rest, total, acc =>
    let src := imgSource img
    if src ≠ [] then
      if startswith src (strL "data:") = false ∧
         endswith (pyLowerStr src) (strL ".pdf") = false then
        if pyStrip img.alt = [] then
          imgScan base rest (total + 1) (insertSet acc (resolveSrc base src))
        else imgScan base rest (total + 1) acc
      else imgScan base rest total acc
    else imgScan base rest total acc

/-- `check_image_alt` (src/checkers.py 162-218). -/
def check_image_alt (imgs : List Img) (url : Str) : Str :=
  if substrOf (strL "/blog/") url ∨ substrOf (strL "/category/") url then strL "skip"
  else
    let r := imgScan (baseUrlOf url) imgs 0 []
    if r.1 = 0 then strL "- 画像なし"
    else if r.2 ≠ [] then
      strL "❌ alt属性なし:" ++ ['\n'] ++
        joinChar '\n' (r.2.mapIdx (fun i u => natStr (i + 1) ++ strL ": " ++ u))
    else strL "✅ OK"

/-! ## `check_keyword_repetition` (src/checkers.py 220-326) -/

def stop_words : List Str :=
  [strL "の", strL "や", strL "が", strL "を", strL "に", strL "へ", strL "で",
   strL "から", strL "まで", strL "り", strL "も", strL "は", strL "・",
   strL "|", strL "-", strL "です", strL "ます", strL "した", strL "する",
   strL "いる", strL "ある", strL "れる", strL "られる", strL "など",
   strL "どの", strL "その", strL "これ", strL "それ", strL "あれ",
   strL "この", strL "さん", strL "様", strL "氏", strL "方", strL "ない",
   strL "あり", strL "なし", strL "とき", strL "もの", strL "こと",
   strL "ところ", strL "できる", strL "おり", strL "なる", strL "いく",
   strL "しまう", strL "たい", strL "ください"]

def medical_specialties : List Str :=
  [strL "内科", strL "外科", strL "眼科", strL "歯科", strL "耳鼻科",
   strL "皮膚科", strL "小児科", strL "整形外科", strL "産婦人科",
   strL "泌尿器科", strL "精神科", strL "脳神経外科", strL "放射線科",
   strL "麻酔科", strL "形成外科", strL "救急科",
   strL "小児歯科", strL "矯正歯科", strL "審美歯科", strL "口腔外科",
   strL "歯科口腔外科", strL "予防歯科", strL "保存歯科", strL "補綴歯科",
   strL "インプラント", strL "一般歯科",
   strL "消化器内科", strL "循環器内科", strL "呼吸器内科", strL "脳神経内科",
   strL "血液内科", strL "腎臓内科", strL "糖尿病内科", strL "アレルギー科",
   strL "消化器外科", strL "心臓血管外科", strL "呼吸器外科",
   strL "小児外科", strL "乳腺外科", strL "気管食道科",
   strL "病院", strL "クリニック", strL "医院", strL "診療所", strL "専門医"]

/-- Bracket characters replaced by a space (src/checkers.py 253). -/
def isBracketChar (c : Char) : Bool :=
  c = '（' ∨ c = '）' ∨ c = '「' ∨ c = '」' ∨ c = '『' ∨ c = '』' ∨
  c = '【' ∨ c = '】' ∨ c = '［' ∨ c = '］' ∨ c = '[' ∨ c = ']'

def preprocChar (c : Char) : Char := if isBracketChar c then ' ' else c

/-- The preprocessed text (src/checkers.py 253, reassigned `text`). -/
def preQ (t : Str) : Str := t.map preprocChar

/-- Sentence separators of `re.split(r'[、。,.]+', text)`. -/
def isPunctSep (c : Char) : Bool := c = '、' ∨ c = '。' ∨ c = ',' ∨ c = '.'

/-- State machine of `re.split(r'[、。,.]+', text)`: `cur` is the reversed
current piece, `inSep` records that the previous character belonged to a
separator run (so further separators extend the same run). -/
def splitPunctAux : Str → Str → Bool → List Str
  | [], cur, _ => [cur.reverse]
  | c :: rest, cur, inSep =>
    if isPunctSep c then
      if inSep then splitPunctAux rest cur true
      else cur.reverse :: splitPunctAux rest [] true
    else splitPunctAux rest (c :: cur) false

/-- `re.split(r'[、。,.]+', text)`: split on maximal separator runs. -/
def splitPunct (l : Str) : List Str := splitPunctAux l [] false

/-- Character class of `[一-龯ぁ-んァ-ヶー]` (src/checkers.py 261). -/
def isJapRun (c : Char) : Bool :=
  ('一' ≤ c ∧ c ≤ '龯') ∨ ('ぁ' ≤ c ∧ c ≤ 'ん') ∨ ('ァ' ≤ c ∧ c ≤ 'ヶ') ∨ c = 'ー'

/-- Accumulator pass collecting maximal runs of `isJapRun` characters
(`cur` is the reversed current run). -/
def extractRunsAux : Str → Str → List Str
  | [], cur => if cur = [] then [] else [cur.reverse]
  | c :: rest, cur =>
    if isJapRun c then extractRunsAux rest (c :: cur)
    else if cur = [] then extractRunsAux rest []
    else cur.reverse :: extractRunsAux rest []

/-- Maximal runs of `isJapRun` characters; with the `length ≥ 2` filter
this is `re.finditer(r'[一-龯ぁ-んァ-ヶー]{2,}', word)`. -/
def extractRuns (l : Str) : List Str := extractRunsAux l []

def addCandidate (acc : List Str) (k : Str) : List Str :=
  if k ∈ acc then acc else acc ++ [k]

/-- Candidate generation from one whitespace-split word
(src/checkers.py 267-277): every length-≥2 prefix of every extracted run
whose full run is neither a stop word nor a medical term. -/
def candidatesOfWord (acc : List Str) (w : Str) : List Str :=
  ((extractRuns w).filter (fun r => 2 ≤ r.length)).foldl (fun a kw =>
    if kw ∉ stop_words ∧ kw ∉ medical_specialties then
      (List.range' 2 (kw.length - 1)).foldl (fun a2 len => addCandidate a2 (kw.take len)) a
    else a) acc

/-- `keyword_candidates` (src/checkers.py 259-277); the Python `set` is
modelled as a duplicate-free list in first-insertion order. -/
def keywordCandidates (text : Str) : List Str :=
  (splitPunct (preQ text)).foldl (fun acc s =>
    (pySplitWs (pyStrip s)).foldl candidatesOfWord acc) []

/-- `keyword_counts` (src/checkers.py 280-286). -/
def keywordCounts (text : Str) : List (Str × Nat) :=
  (keywordCandidates text).filterMap (fun k =>
    let c := countNO k (preQ text)
    if 0 < c then some (k, c) else none)

/-- Stable insertion for the descending sort by keyword length
(`repeated_keywords.sort(key=lambda x: len(x[0]), reverse=True)`). -/
def insertByLen (x : Str × Nat) : List (Str × Nat) → List (Str × Nat)
  | [] => [x]
  | y :: ys => if y.1.length < x.1.length then x :: y :: ys else y :: insertByLen x ys

def sortByLenDesc (l : List (Str × Nat)) : List (Str × Nat) :=
  l.foldl (fun acc x => insertByLen x acc) []

/-- `repeated_keywords` (src/checkers.py 289-290). -/
def repeatedKeywords (text : Str) : List (Str × Nat) :=
  sortByLenDesc ((keywordCounts text).filter (fun p => 3 ≤ p.2))

/-- The prefix-containment filter (src/checkers.py 293-302); the index
condition `i != j` is equivalent to key inequality because the keys are
dict keys, hence distinct. -/
def prefixFiltered (rep : List (Str × Nat)) : List (Str × Nat) :=
  rep.filter (fun p => !(rep.any (fun q => q.1 ≠ p.1 ∧ startswith q.1 p.1)))

/-- `medical_term.find(keyword) != -1 or keyword.find(medical_term) != -1`
(src/checkers.py 311-314). -/
def medicalOverlapB (k : Str) : Bool :=
  medical_specialties.any (fun m => substrOf k m ∨ substrOf m k)

/-- The medical-term filter (src/checkers.py 305-316). -/
def medicalFiltered (l : List (Str × Nat)) : List (Str × Nat) :=
  l.filter (fun p => p.1 ∉ medical_specialties ∧ medicalOverlapB p.1 = false)

/-- `final_keywords` (src/checkers.py 305-316). -/
def finalKeywords (text : Str) : List (Str × Nat) :=
  medicalFiltered (prefixFiltered (repeatedKeywords text))

/-- ASCII apostrophe (kept out of string literals). -/
def apos : Char := Char.ofNat 39

def okMark : Str := strL "✅ OK"

/-- `check_keyword_repetition` (src/checkers.py 220-326). -/
def check_keyword_repetition (text : Str) : List Str :=
  if text = [] then [okMark]
  else
    let fk := finalKeywords text
    if fk = [] then [okMark]
    else
      strL "⚠️ キーワードの重複：" ::
        fk.mapIdx (fun i p =>
          natStr (i + 1) ++ strL ". " ++ [apos] ++ p.1 ++ [apos] ++ strL " が" ++
          natStr p.2 ++ strL "回出現")

/-! ## Page fetch/classification (src/app.py 307-482) and crawl driver -/

/-- Parsed-page abstraction of the BeautifulSoup tree: the pieces the
embedded functions consume. -/
structure Page where
  headings : List Heading
  imgs : List Img
  elems : List Elem
  title : Option Str
  metaDescription : Option Str
  ogDescription : Option Str
deriving DecidableEq

structure HttpResponse where
  status : Nat
  page : Page
deriving DecidableEq

/-- One result row of `get_page_info` (the dict of src/app.py 346-358).
Exception messages interpolated into the error strings are not modelled
(the model's exceptions are message-free). -/
structure Report where
  url : Str
  title : Str
  description : Str
  title_length : Nat
  description_length : Nat
  title_status : Str
  description_status : Str
  heading_issues : Str
  english_only_headings : Str
  images_without_alt : Str
  html_syntax : Str
deriving DecidableEq

/-- Preview-URL report (src/app.py 312-324). -/
def previewReport (url : Str) : Report :=
  ⟨normalize_url url, strL "スキップ（プレビューURL）", strL "スキップ（プレビューURL）",
   0, 0, strL "- スキップ", strL "- スキップ", strL "- スキップ", strL "- スキップ",
   strL "- スキップ", strL "- スキップ"⟩

/-- RequestException report (src/app.py 453-467). -/
def connReport (url : Str) : Report :=
  ⟨normalize_url url, strL "接続エラー", strL "接続エラー", 0, 0,
   strL "❌ 接続エラー", strL "❌ 接続エラー", strL "❌ 接続エラー",
   strL "❌ 接続エラー", strL "❌ 接続エラー", strL "❌ 接続エラー"⟩

/-- Generic-exception report (src/app.py 468-482). -/
def errReport (url : Str) : Report :=
  ⟨normalize_url url, strL "エラー", strL "エラー", 0, 0,
   strL "❌ エラー", strL "❌ エラー", strL "❌ エラー",
   strL "❌ エラー", strL "❌ エラー", strL "❌ エラー"⟩

/-- `get_page_info` (src/app.py 307-482): the fetch/classification
skeleton.  `resp` is the outcome of `requests.get` (`.error` models a
`RequestException`); `raise_for_status` on a 4xx/5xx status raises an
`HTTPError`, which the `except requests.RequestException` arm catches.
The success-branch field assembly (app.py 340-451), which is built from
the separately embedded checkers, is passed in as `analyze`.  A
`ValueError` escaping `is_preview_url` lands in the generic
`except Exception` arm. -/
def get_page_info (analyze : Str → Page → Report) (url : Str)
    (resp : Except Unit HttpResponse) : Option Report :=
  match (match is_preview_url url with
         | .error e => .error e
         | .ok prev =>
           if prev then .ok (some (previewReport url))
           else
             match resp with
             | .error _ => .ok (some (connReport url))
             | .ok r =>
               if r.status = 404 then .ok none
               else if 400 ≤ r.status then .ok (some (connReport url))
               else .ok (some (analyze url r.page)) : Except Unit (Option Report)) with
  | .ok x => x
  | .error _ => some (errReport url)

/-- `get_all_links` of src/app.py (484-539): fetches the page itself; a
404 status, a failed request, and any internal exception all yield the
empty set; otherwise the loop is the one shared with src/utils.py. -/
def get_all_links_fetch (url dom : Str) (resp : Except Unit HttpResponse) : List Str :=
  match resp with
  | .error _ => []
  | .ok r =>
    if r.status = 404 then []
    else if 400 ≤ r.status then []
    else get_all_links url dom r.page.elems

/-- The crawl loop of `main` (src/app.py 616-635).  `pi` and `gl` abstract
`get_page_info` / `get_all_links` applied to the fetched raw URL; the
Python sets `visited_urls` / `urls_to_visit` are modelled as
duplicate-free lists whose `pop()` takes the head (the set's choice of
element is unspecified).  Returns (final visited set, trace of fetched raw
URLs, results list). -/
def crawlRun {α : Type} (pi : Str → Option α) (gl : Str → List Str) :
    Nat → List Str → List Str → List Str × List Str × List α
  | 0, visited, _ => (visited, [], [])
  | _ + 1, visited, [] => (visited, [], [])
  | n + 1, visited, u :: rest =>
    let nu := normalize_url u
    if nu ∈ visited then crawlRun pi gl n visited rest
    else
      let visited2 := nu :: visited
      let frontier2 := ((gl u).filter (fun l => l ∉ visited2)).foldl insertSet rest
      let r := crawlRun pi gl n visited2 frontier2
      (r.1, u :: r.2.1,
       (match pi u with | some rep => [rep] | none => []) ++ r.2.2)

/-! # Theorems -/

/-! ## Generic string lemmas -/

theorem endswith_iff {l s : Str} : endswith l s = true ↔ ∃ t, l = t ++ s := by
  unfold endswith
  simp only [decide_eq_true_eq]
  constructor
  · intro h
    refine ⟨l.take (l.length - s.length), ?_⟩
    conv_lhs => rw [← List.take_append_drop (l.length - s.length) l]
    rw [h]
  · rintro ⟨t, rfl⟩
    have hl : (t ++ s).length - s.length = t.length := by simp
    rw [hl]
    exact List.drop_left t s

theorem startswith_iff {l p : Str} : startswith l p = true ↔ ∃ t, l = p ++ t := by
  unfold startswith
  simp only [decide_eq_true_eq]
  constructor
  · intro h
    refine ⟨l.drop p.length, ?_⟩
    conv_lhs => rw [← List.take_append_drop p.length l]
    rw [h]
  · rintro ⟨t, rfl⟩
    exact List.take_left p t

theorem endswith_concat_singleton (t : Str) (a b : Char) :
    endswith (t ++ [a]) [b] = decide (a = b) := by
  unfold endswith
  have h1 : (t ++ [a]).length - [b].length = t.length := by simp
  rw [h1, List.drop_left t [a]]
  simp

theorem endswith_concat_ne {a b : Char} (t s : Str) (hab : a ≠ b) :
    endswith (t ++ [a]) (s ++ [b]) = false := by
  by_contra hmm
  rw [Bool.not_eq_false] at hmm
  obtain ⟨u, hu⟩ := endswith_iff.mp hmm
  have h1 : (t ++ [a]).getLast? = some a := List.getLast?_concat _
  have h2 : (u ++ (s ++ [b])).getLast? = some b := by
    rw [← List.append_assoc]
    exact List.getLast?_concat _
  rw [hu, h2] at h1
  exact hab (Option.some.inj h1).symm

theorem endswith_append_right {l u s : Str} (h : endswith l (u ++ s) = true) :
    endswith l s = true := by
  obtain ⟨t, rfl⟩ := endswith_iff.mp h
  exact endswith_iff.mpr ⟨t ++ u, by rw [List.append_assoc]⟩

theorem pyLowerStr_append (a b : Str) :
    pyLowerStr (a ++ b) = pyLowerStr a ++ pyLowerStr b := by
  simp [pyLowerStr]

theorem endswith_lower_decomp {d s : Str} (h : endswith (pyLowerStr d) s = true) :
    ∃ t u, d = t ++ u ∧ u.length = s.length ∧ pyLowerStr u = s := by
  obtain ⟨t0, ht⟩ := endswith_iff.mp h
  have hlen : d.length = t0.length + s.length := by
    have hc := congrArg List.length ht
    simpa [pyLowerStr] using hc
  refine ⟨d.take t0.length, d.drop t0.length, (List.take_append_drop _ d).symm, ?_, ?_⟩
  · simp [hlen]
  · rw [pyLowerStr, List.map_drop, ← pyLowerStr]
    rw [ht, List.drop_left t0 s]

theorem charOfNat_upper_ne_slash (n : Nat) (h1 : 65 ≤ n) (h2 : n ≤ 90) :
    Char.ofNat (n + 32) ≠ '/' := by
  interval_cases n <;> decide

theorem pyLowerChar_eq_slash {c : Char} (h : pyLowerChar c = '/') : c = '/' := by
  unfold pyLowerChar at h
  split at h
  · rename_i hc
    rcases hc with ⟨hc1, hc2⟩
    have h65 : 65 ≤ c.toNat := by
      rw [Char.le_def, UInt32.le_def] at hc1
      have hb := BitVec.le_def.mp hc1
      simpa [Char.toNat, UInt32.toNat] using hb
    have h90 : c.toNat ≤ 90 := by
      rw [Char.le_def, UInt32.le_def] at hc2
      have hb := BitVec.le_def.mp hc2
      simpa [Char.toNat, UInt32.toNat] using hb
    exact absurd h (charOfNat_upper_ne_slash c.toNat h65 h90)
  · exact h

/-! ## Branch lemmas for `normalize_url` -/

theorem stripIndex_of_slashIndex {d : Str}
    (h : endswith (pyLowerStr d) (strL "/index.html") = true) :
    stripIndex d = d.take (d.length - 10) := by
  unfold stripIndex
  rw [h]
  simp

theorem stripIndex_of_bareIndex {d : Str}
    (h10 : endswith (pyLowerStr d) (strL "/index.html") = false)
    (h9 : endswith (pyLowerStr d) (strL "index.html") = true) :
    stripIndex d = d.take (d.length - 9) := by
  unfold stripIndex
  rw [h10, h9]
  simp

theorem stripIndex_of_none {d : Str}
    (h10 : endswith (pyLowerStr d) (strL "/index.html") = false)
    (h9 : endswith (pyLowerStr d) (strL "index.html") = false) :
    stripIndex d = d := by
  unfold stripIndex
  rw [h10, h9]
  simp

theorem slashRule_of_html {d : Str}
    (h : endswith (pyLowerStr d) (strL ".html") = true) : slashRule d = d := by
  unfold slashRule
  rw [h]
  simp

theorem slashRule_of_noslash {d : Str}
    (h1 : endswith (pyLowerStr d) (strL ".html") = false)
    (h2 : endswith d (strL "/") = false) : slashRule d = d ++ strL "/" := by
  unfold slashRule
  rw [h1, h2]
  simp

theorem slashRule_of_slash {d : Str}
    (h1 : endswith (pyLowerStr d) (strL ".html") = false)
    (h2 : endswith d (strL "/") = true) : slashRule d = d := by
  unfold slashRule
  rw [h1, h2]
  simp

/-- Every `normalize_url` output ends in `/`, or ends (case-insensitively)
in `.html` but not in `index.html`. -/
theorem normalize_url_shape (u0 : Str) :
    endswith (normalize_url u0) (strL "/") = true ∨
    (endswith (pyLowerStr (normalize_url u0)) (strL ".html") = true ∧
     endswith (pyLowerStr (normalize_url u0)) (strL "index.html") = false) := by
  unfold normalize_url
  generalize unquote u0 = d
  by_cases h10 : endswith (pyLowerStr d) (strL "/index.html") = true
  · -- the `/index.html` strip leaves `... ++ ['/']`
    obtain ⟨t, u, hd, hulen, hulow⟩ := endswith_lower_decomp h10
    have hu11 : u.length = 11 := by simpa using hulen
    obtain ⟨c, u2, rfl⟩ : ∃ c u2, u = c :: u2 := by
      cases u with
      | nil => simp at hu11
      | cons c u2 => exact ⟨c, u2, rfl⟩
    have hx : pyLowerChar c :: pyLowerStr u2 = '/' :: strL "index.html" := by
      have h2 : strL "/index.html" = '/' :: strL "index.html" := by decide
      rw [← h2]
      exact hulow
    have hc : c = '/' := pyLowerChar_eq_slash (List.cons.inj hx).1
    subst hc
    have hdlen : d.length = t.length + 11 := by
      rw [hd]
      simp at hu11 ⊢
      omega
    have htake : d.take (d.length - 10) = t ++ ['/'] := by
      rw [hd]
      have harith : d.length - 10 = t.length + 1 := by omega
      rw [hd] at harith
      rw [harith, List.take_append 1]
      simp
    rw [stripIndex_of_slashIndex h10, htake]
    have e3 : endswith (pyLowerStr (t ++ ['/'])) (strL ".html") = false := by
      rw [pyLowerStr_append, show pyLowerStr ['/'] = ['/'] from by decide,
          show strL ".html" = strL ".htm" ++ ['l'] from by decide]
      exact endswith_concat_ne _ _ (by decide)
    have e4 : endswith (t ++ ['/']) (strL "/") = true := by
      rw [show strL "/" = ['/'] from by decide, endswith_concat_singleton]
      simp
    rw [slashRule_of_slash e3 e4]
    exact Or.inl e4
  · rw [Bool.not_eq_true] at h10
    by_cases h9 : endswith (pyLowerStr d) (strL "index.html") = true
    · -- the bare `index.html` strip leaves `... ++ [c]` with lower c = 'i'
      obtain ⟨t, u, hd, hulen, hulow⟩ := endswith_lower_decomp h9
      have hu10 : u.length = 10 := by simpa using hulen
      obtain ⟨c, u2, rfl⟩ : ∃ c u2, u = c :: u2 := by
        cases u with
        | nil => simp at hu10
        | cons c u2 => exact ⟨c, u2, rfl⟩
      have hx : pyLowerChar c :: pyLowerStr u2 = 'i' :: strL "ndex.html" := by
        have h2 : strL "index.html" = 'i' :: strL "ndex.html" := by decide
        rw [← h2]
        exact hulow
      have hci : pyLowerChar c = 'i' := (List.cons.inj hx).1
      have hdlen : d.length = t.length + 10 := by
        rw [hd]
        simp at hu10 ⊢
        omega
      have htake : d.take (d.length - 9) = t ++ [c] := by
        rw [hd]
        have harith : d.length - 9 = t.length + 1 := by omega
        rw [hd] at harith
        rw [harith, List.take_append 1]
        simp
      rw [stripIndex_of_bareIndex h10 h9, htake]
      have e3 : endswith (pyLowerStr (t ++ [c])) (strL ".html") = false := by
        rw [pyLowerStr_append, show pyLowerStr [c] = [pyLowerChar c] from rfl, hci,
            show strL ".html" = strL ".htm" ++ ['l'] from by decide]
        exact endswith_concat_ne _ _ (by decide)
      have e4 : endswith (t ++ [c]) (strL "/") = false := by
        rw [show strL "/" = ['/'] from by decide, endswith_concat_singleton]
        simp only [decide_eq_false_iff_not]
        intro hcc
        rw [hcc] at hci
        exact absurd hci (by decide)
      rw [slashRule_of_noslash e3 e4]
      left
      rw [show strL "/" = ['/'] from by decide, List.append_assoc,
          show [c] ++ ['/'] = [c] ++ ['/'] from rfl, ← List.append_assoc,
          endswith_concat_singleton]
      simp
    · rw [Bool.not_eq_true] at h9
      rw [stripIndex_of_none h10 h9]
      by_cases hh : endswith (pyLowerStr d) (strL ".html") = true
      · rw [slashRule_of_html hh]
        exact Or.inr ⟨hh, h9⟩
      · rw [Bool.not_eq_true] at hh
        by_cases hsl : endswith d (strL "/") = true
        · rw [slashRule_of_slash hh hsl]
          exact Or.inl hsl
        · rw [Bool.not_eq_true] at hsl
          rw [slashRule_of_noslash hh hsl]
          left
          rw [show strL "/" = ['/'] from by decide, endswith_concat_singleton]
          simp

/-! ## C1: idempotence of `normalize_url` -/

/-- C1 (amended): `normalize_url` is idempotent on every URL whose
normalized form is stable under percent-decoding — in particular on every
URL whose normalized form contains no `%`.  (The unrestricted claim is
refuted by `C1_counterexample`: a doubly percent-encoded URL decodes
further on the second pass.) -/
theorem C1_normalize_url_idempotent (u : Str)
    (h : unquote (normalize_url u) = normalize_url u) :
    normalize_url (normalize_url u) = normalize_url u := by
  rcases normalize_url_shape u with hA | ⟨hB1, hB2⟩
  · obtain ⟨t, ht⟩ := endswith_iff.mp hA
    rw [show strL "/" = ['/'] from by decide] at ht
    rw [ht] at h ⊢
    show slashRule (stripIndex (unquote (t ++ ['/']))) = t ++ ['/']
    rw [h]
    have hl : pyLowerStr (t ++ ['/']) = pyLowerStr t ++ ['/'] := by
      rw [pyLowerStr_append, show pyLowerStr ['/'] = ['/'] from by decide]
    have e1 : endswith (pyLowerStr (t ++ ['/'])) (strL "/index.html") = false := by
      rw [hl, show strL "/index.html" = strL "/index.htm" ++ ['l'] from by decide]
      exact endswith_concat_ne _ _ (by decide)
    have e2 : endswith (pyLowerStr (t ++ ['/'])) (strL "index.html") = false := by
      rw [hl, show strL "index.html" = strL "index.htm" ++ ['l'] from by decide]
      exact endswith_concat_ne _ _ (by decide)
    have e3 : endswith (pyLowerStr (t ++ ['/'])) (strL ".html") = false := by
      rw [hl, show strL ".html" = strL ".htm" ++ ['l'] from by decide]
      exact endswith_concat_ne _ _ (by decide)
    have e4 : endswith (t ++ ['/']) (strL "/") = true := by
      rw [show strL "/" = ['/'] from by decide, endswith_concat_singleton]
      simp
    rw [stripIndex_of_none e1 e2, slashRule_of_slash e3 e4]
  · generalize hv : normalize_url u = v at h hB1 hB2 ⊢
    show slashRule (stripIndex (unquote v)) = v
    rw [h]
    have e1 : endswith (pyLowerStr v) (strL "/index.html") = false := by
      cases hcon : endswith (pyLowerStr v) (strL "/index.html") with
      | false => rfl
      | true =>
        rw [show strL "/index.html" = strL "/" ++ strL "index.html" from by decide] at hcon
        rw [endswith_append_right hcon] at hB2
        exact absurd hB2 (by decide)
    rw [stripIndex_of_none e1 hB2, slashRule_of_html hB1]

/-- C1 counterexample: `normalize("http://x.com/a%2541")` is
`"http://x.com/a%41/"`, whose second normalization decodes `%41` to `A`;
idempotence fails on this doubly percent-encoded URL. -/
theorem C1_counterexample :
    normalize_url (normalize_url (strL "http://x.com/a%2541")) ≠
      normalize_url (strL "http://x.com/a%2541") := by decide

theorem C1_witness :
    unquote (normalize_url (strL "https://x.com/a")) = normalize_url (strL "https://x.com/a") ∧
    normalize_url (normalize_url (strL "https://x.com/a")) = normalize_url (strL "https://x.com/a") :=
  ⟨by decide, C1_normalize_url_idempotent (strL "https://x.com/a") (by decide)⟩

/-! ## C4: the `index.html` suffix strips -/

/-- C4: on a `/index.html` suffix the code strips the 10 characters of
`index.html` and keeps the slash, as the claim states; but on a bare
`index.html` suffix the slice `[:-9]` removes only 9 characters
(`ndex.html`), leaving the `i` behind — `"https://x.com/myindex.html"`
normalizes to `"https://x.com/myi/"`, not `"https://x.com/my/"`. -/
theorem C4_index_strip_eval :
    normalize_url (strL "https://x.com/a/index.html") = strL "https://x.com/a/" ∧
    normalize_url (strL "https://x.com/myindex.html") = strL "https://x.com/myi/" ∧
    normalize_url (strL "https://x.com/myindex.html") ≠ strL "https://x.com/my/" := by
  refine ⟨by decide, by decide, by decide⟩

/-! ## Crawl-driver lemmas -/

theorem crawlRun_visited_mem {α : Type} (pi : Str → Option α) (gl : Str → List Str) :
    ∀ (n : Nat) (visited frontier : List Str) (v : Str),
      v ∈ (crawlRun pi gl n visited frontier).1 →
      v ∈ visited ∨ ∃ u, v = normalize_url u := by
  intro n
  induction n with
  | zero =>
    intro visited frontier v hv
    left
    simpa [crawlRun] using hv
  | succ n ih =>
    intro visited frontier v hv
    cases frontier with
    | nil =>
      left
      simpa [crawlRun] using hv
    | cons u rest =>
      simp only [crawlRun] at hv
      by_cases hmem : normalize_url u ∈ visited
      · rw [if_pos hmem] at hv
        exact ih _ _ _ hv
      · rw [if_neg hmem] at hv
        simp only at hv
        rcases ih _ _ _ hv with h1 | h1
        · rcases List.mem_cons.mp h1 with h2 | h2
          · exact Or.inr ⟨u, h2⟩
          · exact Or.inl h2
        · exact Or.inr h1

theorem crawlRun_fetched_fresh {α : Type} (pi : Str → Option α) (gl : Str → List Str) :
    ∀ (n : Nat) (visited frontier : List Str),
      (∀ w ∈ (crawlRun pi gl n visited frontier).2.1, normalize_url w ∉ visited) ∧
      ((crawlRun pi gl n visited frontier).2.1.map normalize_url).Nodup := by
  intro n
  induction n with
  | zero => intro visited frontier; simp [crawlRun]
  | succ n ih =>
    intro visited frontier
    cases frontier with
    | nil => simp [crawlRun]
    | cons u rest =>
      simp only [crawlRun]
      by_cases hmem : normalize_url u ∈ visited
      · rw [if_pos hmem]
        exact ih _ _
      · rw [if_neg hmem]
        simp only
        obtain ⟨ihFresh, ihNodup⟩ :=
          ih (normalize_url u :: visited)
             (((gl u).filter (fun l => l ∉ normalize_url u :: visited)).foldl insertSet rest)
        constructor
        · intro w hw
          rcases List.mem_cons.mp hw with h2 | h2
          · rw [h2]; exact hmem
          · intro hbad
            exact (ihFresh w h2) (List.mem_cons_of_mem _ hbad)
        · rw [List.map_cons]
          refine List.Nodup.cons ?_ ihNodup
          intro hbad
          obtain ⟨w, hw, hwe⟩ := List.mem_map.mp hbad
          exact (ihFresh w hw) (by rw [hwe]; exact List.mem_cons_self _ _)

theorem crawlRun_results_filterMap {α : Type} (pi : Str → Option α) (gl : Str → List Str) :
    ∀ (n : Nat) (visited frontier : List Str),
      (crawlRun pi gl n visited frontier).2.2 =
      ((crawlRun pi gl n visited frontier).2.1).filterMap pi := by
  intro n
  induction n with
  | zero => intro visited frontier; simp [crawlRun]
  | succ n ih =>
    intro visited frontier
    cases frontier with
    | nil => simp [crawlRun]
    | cons u rest =>
      simp only [crawlRun]
      by_cases hmem : normalize_url u ∈ visited
      · rw [if_pos hmem]
        exact ih _ _
      · rw [if_neg hmem]
        simp only
        rw [List.filterMap_cons, ih]
        cases pi u <;> simp

/-! ## C9: terminal shape of normalized URLs -/

/-- C9: every `normalize_url` output ends in `/` or (case-insensitively)
in `.html`; consequently every key in the crawler's visited set (which
holds only `normalize_url` images, plus whatever was preseeded — here the
empty set) has this shape. -/
theorem C9_normalized_shape :
    (∀ u : Str, endswith (normalize_url u) (strL "/") = true ∨
       endswith (pyLowerStr (normalize_url u)) (strL ".html") = true) ∧
    (∀ (α : Type) (pi : Str → Option α) (gl : Str → List Str) (n : Nat)
       (frontier : List Str) (v : Str),
       v ∈ (crawlRun pi gl n [] frontier).1 →
       endswith v (strL "/") = true ∨
       endswith (pyLowerStr v) (strL ".html") = true) := by
  constructor
  · intro u
    exact (normalize_url_shape u).imp id And.left
  · intro α pi gl n frontier v hv
    rcases crawlRun_visited_mem pi gl n [] frontier v hv with h | ⟨u, rfl⟩
    · simp at h
    · exact (normalize_url_shape u).imp id And.left

theorem C9_witness :
    (strL "https://x.com/a/" ∈
      (crawlRun (fun u => some (normalize_url u)) (fun _ => []) 2 []
        [strL "https://x.com/a"]).1) ∧
    (endswith (strL "https://x.com/a/") (strL "/") = true ∨
     endswith (pyLowerStr (strL "https://x.com/a/")) (strL ".html") = true) :=
  ⟨by decide,
   C9_normalized_shape.2 Str (fun u => some (normalize_url u)) (fun _ => []) 2
     [strL "https://x.com/a"] (strL "https://x.com/a/") (by decide)⟩

/-! ## C2: at most one fetch per normalized URL -/

/-- C2: the driver normalizes the popped URL and skips it when the
normalized form was already visited, so the normalized forms of the
fetched URLs are pairwise distinct (for any page-info and link oracles and
any fuel); concretely, seeding the frontier with the two encodings
`"https://x.com/%61"` and `"https://x.com/a"` of one URL produces exactly
one report. -/
theorem C2_at_most_once_per_normalized :
    (∀ (α : Type) (pi : Str → Option α) (gl : Str → List Str) (n : Nat)
       (frontier : List Str),
       ((crawlRun pi gl n [] frontier).2.1.map normalize_url).Nodup) ∧
    ((crawlRun (fun u => some (normalize_url u)) (fun _ => []) 4 []
        [strL "https://x.com/%61", strL "https://x.com/a"]).2.2.length = 1) := by
  constructor
  · intro α pi gl n frontier
    exact (crawlRun_fetched_fresh pi gl n [] frontier).2
  · decide

/-! ## C3: 404 handling -/

/-- C3 counterexample: at a 404 response `get_page_info` produces no
report at all (`none`) — no minimal report exists and nothing is filed
into any collection (the code has no separate 404 collection). -/
theorem C3_counterexample :
    get_page_info (fun u _ => connReport u) (strL "https://x.com/gone")
      (.ok ⟨404, ⟨[], [], [], none, none, none⟩⟩) = none := by decide

/-- C3 (amended): on a 404 response for a non-preview URL, `get_page_info`
returns no report (so the page's URL never appears in the results list,
which collects exactly the non-`none` oracle outputs of the fetched
URLs), and `get_all_links` returns the empty set, so the frontier never
grows through a 404 page. -/
theorem C3_404_no_report_no_links :
    (∀ (analyze : Str → Page → Report) (url : Str) (p : Page),
       is_preview_url url = .ok false →
       get_page_info analyze url (.ok ⟨404, p⟩) = none) ∧
    (∀ (url dom : Str) (p : Page),
       get_all_links_fetch url dom (.ok ⟨404, p⟩) = []) ∧
    (∀ (α : Type) (pi : Str → Option α) (gl : Str → List Str) (n : Nat)
       (visited frontier : List Str),
       (crawlRun pi gl n visited frontier).2.2 =
       ((crawlRun pi gl n visited frontier).2.1).filterMap pi) := by
  refine ⟨?_, ?_, ?_⟩
  · intro analyze url p h
    simp [get_page_info, h]
  · intro url dom p
    simp [get_all_links_fetch]
  · intro α pi gl n visited frontier
    exact crawlRun_results_filterMap pi gl n visited frontier

theorem C3_witness :
    is_preview_url (strL "https://x.com/gone") = .ok false ∧
    get_page_info (fun u _ => errReport u) (strL "https://x.com/gone")
      (.ok ⟨404, ⟨[], [], [], none, none, none⟩⟩) = none :=
  ⟨by rfl,
   C3_404_no_report_no_links.1 (fun u _ => errReport u) (strL "https://x.com/gone")
     ⟨[], [], [], none, none, none⟩ (by rfl)⟩

/-! ## C6: heading-order check -/

theorem HTag.level_pos (t : HTag) : 0 < t.level := by cases t <;> decide

theorem headingLoop_eq_specJumps :
    ∀ (hs : List Heading) (prev i : Nat), 0 < prev →
      (headingLoop prev i hs).1 = specJumps prev hs := by
  intro hs
  induction hs with
  | nil => intro prev i hp; simp [headingLoop, specJumps]
  | cons h rest ih =>
    intro prev i hp
    simp only [headingLoop, specJumps]
    rw [ih _ (i + 1) (HTag.level_pos h.tag)]
    congr 1
    rw [if_pos hp]
    by_cases hc : 1 < h.tag.level - prev ∧ prev < h.tag.level
    · rw [if_pos hc, if_pos ⟨hc.2, hc.1⟩]
    · rw [if_neg hc, if_neg (fun hc2 => hc ⟨hc2.2, hc2.1⟩)]

/-- C6: the raw issue list of `check_heading_order` flags the first
heading iff its level is not 1 and each later heading iff it jumps more
than one level above its predecessor (`prev_level` is updated after every
heading, decreasing levels never flag); the three example sequences
behave as claimed. -/
theorem C6_check_heading_order :
    (∀ hs : List Heading, (headingLoop 0 1 hs).1 = specHeadingIssues hs) ∧
    ((check_heading_order [⟨.h1, strL "A"⟩, ⟨.h3, strL "B"⟩]).1 =
      [strL "1: h1からh3に飛んでいます（B）"]) ∧
    ((check_heading_order [⟨.h2, strL "A"⟩, ⟨.h3, strL "B"⟩]).1 =
      [strL "1: 最初の見出しがh1ではなくh2です（A）"]) ∧
    ((check_heading_order [⟨.h1, strL "A"⟩, ⟨.h2, strL "B"⟩, ⟨.h3, strL "C"⟩]).1 = []) := by
  refine ⟨?_, by decide, by decide, by decide⟩
  intro hs
  cases hs with
  | nil => simp [headingLoop, specHeadingIssues]
  | cons h rest =>
    simp only [headingLoop, specHeadingIssues]
    rw [headingLoop_eq_specJumps rest _ 2 (HTag.level_pos h.tag)]
    congr 1
    simp

/-! ## C7 / C10: link extraction -/

theorem mem_insertSet {acc : List Str} {x l : Str} (h : l ∈ insertSet acc x) :
    l ∈ acc ∨ l = x := by
  unfold insertSet at h
  split at h
  · exact Or.inl h
  · rcases List.mem_append.mp h with h1 | h1
    · exact Or.inl h1
    · right; simpa using h1

theorem processElem_some {url dom : Str} {e : Elem} {l : Str}
    (h : processElem url dom e = .ok (some l)) :
    ∃ absu p,
      pyUrljoin url (if e.href ≠ [] then e.href else e.src) = .ok absu ∧
      pyUrlparse absu [] = .ok p ∧
      endswith (pyLowerStr p.path) (strL "index.html") = false ∧
      p.netloc = dom ∧ is_anchor_link absu = false ∧
      endswith (pyLowerStr absu) (strL ".pdf") = false ∧
      is_preview_url absu = .ok false ∧
      l = (if endswith (pyLowerStr (rstripChar '/' absu)) (strL ".html")
           then rstripChar '/' absu else rstripChar '/' absu ++ strL "/") := by
  unfold processElem at h
  generalize hhr : (if e.href ≠ [] then e.href else e.src) = href at h ⊢
  simp only at h
  split at h
  · exact absurd h (by simp)
  · split at h
    · exact absurd h (by simp)
    · rename_i absu hjoin
      split at h
      · exact absurd h (by simp)
      · rename_i p hparse
        split at h
        · exact absurd h (by simp)
        · rename_i hidx
          split at h
          · exact absurd h (by simp)
          · rename_i prev hprev
            split at h
            · rename_i hcond
              refine ⟨absu, p, hjoin, hparse, ?_, hcond.1, hcond.2.1, hcond.2.2.1, ?_, ?_⟩
              · rw [Bool.not_eq_true] at hidx
                exact hidx
              · rw [hcond.2.2.2] at hprev
                exact hprev
              · have hinj := Option.some.inj (Except.ok.inj h)
                exact hinj.symm
            · exact absurd h (by simp)

theorem linksLoop_mem {url dom : Str} :
    ∀ (elems : List Elem) (acc out : List Str),
      linksLoop url dom elems acc = .ok out → ∀ l ∈ out,
      l ∈ acc ∨ ∃ e ∈ elems, processElem url dom e = .ok (some l) := by
  intro elems
  induction elems with
  | nil =>
    intro acc out h l hl
    left
    cases h
    exact hl
  | cons e rest ih =>
    intro acc out h l hl
    simp only [linksLoop] at h
    split at h
    · exact absurd h (by simp)
    · rcases ih _ _ h l hl with h1 | ⟨e2, he2, hpe⟩
      · exact Or.inl h1
      · exact Or.inr ⟨e2, List.mem_cons_of_mem _ he2, hpe⟩
    · rename_i x hx
      rcases ih _ _ h l hl with h1 | ⟨e2, he2, hpe⟩
      · rcases mem_insertSet h1 with h2 | h2
        · exact Or.inl h2
        · subst h2
          exact Or.inr ⟨e, List.mem_cons_self _ _, hx⟩
      · exact Or.inr ⟨e2, List.mem_cons_of_mem _ he2, hpe⟩

/-- C7: every link returned by `get_all_links` comes from some element
whose resolved absolute URL parses with host equal to the target domain,
whose path does not end in `index.html`, which is not an anchor, not a
`.pdf` and not a preview URL, and which is then slash-normalized; the
five-link example page contributes exactly its two internal links. -/
theorem C7_get_all_links_filters :
    (∀ (url dom : Str) (elems : List Elem) (l : Str),
       l ∈ get_all_links url dom elems →
       ∃ e ∈ elems, ∃ absu p,
         pyUrljoin url (if e.href ≠ [] then e.href else e.src) = .ok absu ∧
         pyUrlparse absu [] = .ok p ∧
         endswith (pyLowerStr p.path) (strL "index.html") = false ∧
         p.netloc = dom ∧ is_anchor_link absu = false ∧
         endswith (pyLowerStr absu) (strL ".pdf") = false ∧
         is_preview_url absu = .ok false ∧
         l = (if endswith (pyLowerStr (rstripChar '/' absu)) (strL ".html")
              then rstripChar '/' absu else rstripChar '/' absu ++ strL "/")) ∧
    (get_all_links (strL "https://x.com/") (strL "x.com")
       [⟨strL "https://x.com/about", []⟩, ⟨strL "contact.html", []⟩,
        ⟨strL "#section", []⟩, ⟨strL "https://other.com/x", []⟩,
        ⟨strL "/doc.pdf", []⟩] =
     [strL "https://x.com/about/", strL "https://x.com/contact.html"]) := by
  constructor
  · intro url dom elems l hl
    unfold get_all_links at hl
    split at hl
    · rename_i s hs
      rcases linksLoop_mem elems [] s hs l hl with h1 | ⟨e, he, hpe⟩
      · simp at h1
      · exact ⟨e, he, processElem_some hpe⟩
    · simp at hl
  · rfl

theorem C7_witness :
    ∃ e ∈ ([⟨strL "https://x.com/about", []⟩, ⟨strL "contact.html", []⟩,
            ⟨strL "#section", []⟩, ⟨strL "https://other.com/x", []⟩,
            ⟨strL "/doc.pdf", []⟩] : List Elem), ∃ absu p,
      pyUrljoin (strL "https://x.com/") (if e.href ≠ [] then e.href else e.src) = .ok absu ∧
      pyUrlparse absu [] = .ok p ∧
      endswith (pyLowerStr p.path) (strL "index.html") = false ∧
      p.netloc = strL "x.com" ∧ is_anchor_link absu = false ∧
      endswith (pyLowerStr absu) (strL ".pdf") = false ∧
      is_preview_url absu = .ok false ∧
      strL "https://x.com/about/" =
        (if endswith (pyLowerStr (rstripChar '/' absu)) (strL ".html")
         then rstripChar '/' absu else rstripChar '/' absu ++ strL "/") :=
  C7_get_all_links_filters.1 (strL "https://x.com/") (strL "x.com") _
    (strL "https://x.com/about/") (by decide)

/-- C10: `get_all_links` is total: when the loop body succeeds it returns
that set, and when any internal step raises (here: the malformed
`"http://[bad"` href makes `urljoin`/`urlsplit` raise the Invalid-IPv6
`ValueError`) the exception is swallowed and the empty set is returned. -/
theorem C10_get_all_links_total :
    (∀ (url dom : Str) (elems : List Elem) (er : Unit),
       linksLoop url dom elems [] = .error er → get_all_links url dom elems = []) ∧
    (∀ (url dom : Str) (elems : List Elem) (s : List Str),
       linksLoop url dom elems [] = .ok s → get_all_links url dom elems = s) ∧
    (linksLoop (strL "https://x.com/") (strL "x.com")
       [⟨strL "http://[bad", []⟩] [] = .error ()) ∧
    (get_all_links (strL "https://x.com/") (strL "x.com")
       [⟨strL "http://[bad", []⟩] = []) := by
  refine ⟨?_, ?_, by rfl, by rfl⟩
  · intro url dom elems er h
    unfold get_all_links
    rw [h]
  · intro url dom elems s h
    unfold get_all_links
    rw [h]

theorem C10_witness :
    get_all_links (strL "https://x.com/") (strL "x.com")
      [⟨strL "https://x.com/about", []⟩] = [strL "https://x.com/about/"] :=
  C10_get_all_links_total.2.1 (strL "https://x.com/") (strL "x.com")
    [⟨strL "https://x.com/about", []⟩] [strL "https://x.com/about/"] (by rfl)

/-! ## C8: image-alt source resolution -/

theorem splitCharAux_ne_nil (sep : Char) :
    ∀ (l : Str) (cur : Str), splitCharAux sep l cur ≠ [] := by
  intro l
  induction l with
  | nil => intro cur; simp [splitCharAux]
  | cons c rest ih =>
    intro cur
    simp only [splitCharAux]
    split
    · simp
    · exact ih _

theorem joinChar_cons (sep : Char) (a : Str) (xs : List Str) (hx : xs ≠ []) :
    joinChar sep (a :: xs) = a ++ sep :: joinChar sep xs := by
  cases xs with
  | nil => cases hx rfl
  | cons b ys => simp [joinChar, List.intercalate, List.intersperse]

theorem joinChar_splitCharAux (sep : Char) :
    ∀ (l : Str) (cur : Str),
      joinChar sep (splitCharAux sep l cur) = cur.reverse ++ l := by
  intro l
  induction l with
  | nil => intro cur; simp [splitCharAux, joinChar, List.intercalate]
  | cons c rest ih =>
    intro cur
    simp only [splitCharAux]
    by_cases hc : c = sep
    · rw [if_pos hc, joinChar_cons sep _ _ (splitCharAux_ne_nil sep rest []), ih []]
      simp [hc]
    · rw [if_neg hc, ih (c :: cur)]
      simp

theorem joinChar_splitChar (sep : Char) (l : Str) :
    joinChar sep (splitChar sep l) = l := by
  simpa using joinChar_splitCharAux sep l []

theorem resolveSrc_eq_spec (base src : Str) :
    resolveSrc base src = resolveSrcSpec base src := by
  unfold resolveSrc resolveSrcSpec
  by_cases h1 : startswith src (strL "/") = true
  · rw [h1]
    simp
  · rw [Bool.not_eq_true] at h1
    rw [h1]
    by_cases h2 : startswith src (strL "../") = true
    · rw [h2]
      simp only [Bool.false_eq_true, if_false, if_true]
      obtain ⟨t, rfl⟩ := startswith_iff.mp h2
      have hsplit : splitChar '/' (strL "../" ++ t) = strL ".." :: splitChar '/' t := by
        show splitCharAux '/' ('.' :: '.' :: '/' :: t) [] = _
        simp [splitCharAux, splitChar]
        decide
      rw [hsplit]
      simp only [List.drop_succ_cons, List.drop_zero]
      rw [joinChar_splitChar]
      rfl
    · rw [Bool.not_eq_true] at h2
      rw [h2]
      simp

theorem imgScan_missing (base : Str) :
    ∀ (imgs : List Img) (total : Nat) (acc : List Str),
      (imgScan base imgs total acc).2 =
      (imgs.filterMap (fun img =>
         if imgSource img ≠ [] ∧ startswith (imgSource img) (strL "data:") = false ∧
            endswith (pyLowerStr (imgSource img)) (strL ".pdf") = false ∧
            pyStrip img.alt = [] then
           some (resolveSrc base (imgSource img))
         else none)).foldl insertSet acc := by
  intro imgs
  induction imgs with
  | nil => intro total acc; simp [imgScan]
  | cons img rest ih =>
    intro total acc
    by_cases h1 : imgSource img = []
    · simp [imgScan, List.filterMap_cons, h1, ih]
    · cases hd : startswith (imgSource img) (strL "data:") with
      | true => simp [imgScan, List.filterMap_cons, h1, hd, ih]
      | false =>
        cases hp : endswith (pyLowerStr (imgSource img)) (strL ".pdf") with
        | true => simp [imgScan, List.filterMap_cons, h1, hd, hp, ih]
        | false =>
          by_cases ha : pyStrip img.alt = []
          · simp [imgScan, List.filterMap_cons, h1, hd, hp, ha, ih]
          · simp [imgScan, List.filterMap_cons, h1, hd, hp, ha, ih]

/-- C8: a qualifying image without alt text has its source resolved
against the page origin exactly as the spec words it (`/`-rooted →
origin + src; `../`-relative → origin + `/` + remainder after `../`;
bare-relative → origin + `/` + src), and the missing-alt list is the
order-preserving deduplication of those resolved sources; the three
resolution forms give `["https://x.com/a.png"]` for base
`https://x.com/p/`. -/
theorem C8_check_image_alt :
    (∀ base src : Str, resolveSrc base src = resolveSrcSpec base src) ∧
    (∀ (base : Str) (imgs : List Img) (total : Nat) (acc : List Str),
       (imgScan base imgs total acc).2 =
       (imgs.filterMap (fun img =>
          if imgSource img ≠ [] ∧ startswith (imgSource img) (strL "data:") = false ∧
             endswith (pyLowerStr (imgSource img)) (strL ".pdf") = false ∧
             pyStrip img.alt = [] then
            some (resolveSrc base (imgSource img))
          else none)).foldl insertSet acc) ∧
    (check_image_alt [⟨strL "/a.png", [], []⟩] (strL "https://x.com/p/") =
       strL "❌ alt属性なし:\n1: https://x.com/a.png") ∧
    (check_image_alt [⟨strL "../a.png", [], []⟩] (strL "https://x.com/p/") =
       strL "❌ alt属性なし:\n1: https://x.com/a.png") ∧
    (check_image_alt [⟨strL "a.png", [], []⟩] (strL "https://x.com/p/") =
       strL "❌ alt属性なし:\n1: https://x.com/a.png") :=
  ⟨resolveSrc_eq_spec, imgScan_missing, by decide, by decide, by decide⟩

/-! ## C5: keyword repetition — candidate characters -/

theorem extractRunsAux_chars :
    ∀ (l : Str) (cur : Str), (∀ c ∈ cur, isJapRun c = true) →
      ∀ r ∈ extractRunsAux l cur, ∀ c ∈ r, isJapRun c = true := by
  intro l
  induction l with
  | nil =>
    intro cur hcur r hr c hc
    simp only [extractRunsAux] at hr
    split at hr
    · simp at hr
    · simp at hr
      subst hr
      exact hcur c (by simpa using hc)
  | cons a rest ih =>
    intro cur hcur r hr c hc
    simp only [extractRunsAux] at hr
    by_cases ha : isJapRun a = true
    · rw [if_pos ha] at hr
      refine ih (a :: cur) ?_ r hr c hc
      intro x hx
      rcases List.mem_cons.mp hx with h | h
      · rw [h]; exact ha
      · exact hcur x h
    · rw [if_neg ha] at hr
      split at hr
      · exact ih [] (by simp) r hr c hc
      · rcases List.mem_cons.mp hr with h | h
        · rw [h] at hc
          exact hcur c (by simpa using hc)
        · exact ih [] (by simp) r h c hc

theorem foldl_addCandidate_mem :
    ∀ (lens : List Nat) (kw : Str) (a : List Str) (k : Str),
      k ∈ lens.foldl (fun a2 len => addCandidate a2 (kw.take len)) a →
      k ∈ a ∨ ∃ n, k = kw.take n := by
  intro lens
  induction lens with
  | nil => intro kw a k h; exact Or.inl h
  | cons x xs ih =>
    intro kw a k h
    rcases ih kw _ k h with h1 | h1
    · simp only at h1
      unfold addCandidate at h1
      split at h1
      · exact Or.inl h1
      · rcases List.mem_append.mp h1 with h2 | h2
        · exact Or.inl h2
        · right; exact ⟨x, by simpa using h2⟩
    · exact Or.inr h1

theorem foldl_candStep_mem :
    ∀ (runs : List Str) (a : List Str) (k : Str),
      k ∈ runs.foldl (fun a kw =>
        if kw ∉ stop_words ∧ kw ∉ medical_specialties then
          (List.range' 2 (kw.length - 1)).foldl
            (fun a2 len => addCandidate a2 (kw.take len)) a
        else a) a →
      k ∈ a ∨ ∃ kw ∈ runs, ∃ n, k = kw.take n := by
  intro runs
  induction runs with
  | nil => intro a k h; exact Or.inl h
  | cons r rs ih =>
    intro a k h
    rcases ih _ k h with h1 | ⟨kw, hkw, n, hn⟩
    · simp only at h1
      by_cases hc : r ∉ stop_words ∧ r ∉ medical_specialties
      · rw [if_pos hc] at h1
        rcases foldl_addCandidate_mem _ r a k h1 with h2 | ⟨n, hn⟩
        · exact Or.inl h2
        · exact Or.inr ⟨r, List.mem_cons_self _ _, n, hn⟩
      · rw [if_neg hc] at h1
        exact Or.inl h1
    · exact Or.inr ⟨kw, List.mem_cons_of_mem _ hkw, n, hn⟩

theorem candidatesOfWord_good (w : Str) (acc : List Str) (k : Str)
    (h : k ∈ candidatesOfWord acc w) :
    k ∈ acc ∨ ∀ c ∈ k, isJapRun c = true := by
  unfold candidatesOfWord at h
  rcases foldl_candStep_mem _ acc k h with h1 | ⟨kw, hkw, n, rfl⟩
  · exact Or.inl h1
  · right
    intro c hc
    have hr : kw ∈ extractRuns w := (List.mem_filter.mp hkw).1
    unfold extractRuns at hr
    exact extractRunsAux_chars w [] (by simp) kw hr c (List.take_subset n kw hc)

theorem keywordCandidates_chars (t : Str) (k : Str) (h : k ∈ keywordCandidates t) :
    ∀ c ∈ k, isJapRun c = true := by
  unfold keywordCandidates at h
  have inner : ∀ (ws : List Str) (acc2 : List Str),
      (∀ k3 ∈ acc2, ∀ c ∈ k3, isJapRun c = true) →
      ∀ k3 ∈ ws.foldl candidatesOfWord acc2, ∀ c ∈ k3, isJapRun c = true := by
    intro ws
    induction ws with
    | nil => intro acc2 hacc2 k3 hk3; exact hacc2 k3 hk3
    | cons w rest2 ih2 =>
      intro acc2 hacc2 k3 hk3
      refine ih2 _ ?_ k3 hk3
      intro k4 hk4
      rcases candidatesOfWord_good w acc2 k4 hk4 with h1 | h1
      · exact hacc2 k4 h1
      · exact h1
  have main : ∀ (ss : List Str) (acc : List Str),
      (∀ k2 ∈ acc, ∀ c ∈ k2, isJapRun c = true) →
      ∀ k2 ∈ ss.foldl (fun acc s => (pySplitWs (pyStrip s)).foldl candidatesOfWord acc) acc,
      ∀ c ∈ k2, isJapRun c = true := by
    intro ss
    induction ss with
    | nil => intro acc hacc k2 hk2; exact hacc k2 hk2
    | cons s rest ih =>
      intro acc hacc k2 hk2
      exact ih _ (inner _ acc hacc) k2 hk2
  exact main _ [] (by simp) k h

/-! ## C5: keyword repetition — occurrence counting -/

theorem startswith_cons (x : Char) (xs : Str) (a : Char) (as : Str) :
    startswith (x :: xs) (a :: as) = (decide (x = a) && startswith xs as) := by
  by_cases hxa : x = a
  · subst hxa
    simp [startswith, List.take_succ_cons]
  · simp [startswith, List.take_succ_cons, hxa]

theorem countSub_cons (k : Str) (c : Char) (rest : Str) :
    countSub k (c :: rest) =
      (if startswith (c :: rest) k then 1 else 0) + countSub k rest := by
  unfold countSub
  rw [List.tails_cons, List.countP_cons]
  by_cases hc : startswith (c :: rest) k = true
  · simp [hc]; omega
  · rw [Bool.not_eq_true] at hc
    simp [hc]

theorem countSub_le_cons (k : Str) (c : Char) (rest : Str) :
    countSub k rest ≤ countSub k (c :: rest) := by
  rw [countSub_cons]
  split <;> omega

theorem countSub_drop_le (k : Str) :
    ∀ (l : Str) (n : Nat), countSub k (l.drop n) ≤ countSub k l := by
  intro l
  induction l with
  | nil => intro n; simp
  | cons c rest ih =>
    intro n
    cases n with
    | zero => simp
    | succ m =>
      rw [List.drop_succ_cons]
      exact le_trans (ih m) (countSub_le_cons k c rest)

theorem countNOGo_le_countSub (k : Str) :
    ∀ (fuel : Nat) (l : Str), countNOGo k fuel l ≤ countSub k l := by
  intro fuel
  induction fuel with
  | zero => intro l; simp [countNOGo]
  | succ f ih =>
    intro l
    cases l with
    | nil => simp [countNOGo]
    | cons c rest =>
      simp only [countNOGo]
      by_cases hs : startswith (c :: rest) k = true
      · rw [if_pos hs]
        calc 1 + countNOGo k f (rest.drop (k.length - 1))
            ≤ 1 + countSub k (rest.drop (k.length - 1)) := by
              have := ih (rest.drop (k.length - 1)); omega
          _ ≤ 1 + countSub k rest := by
              have := countSub_drop_le k rest (k.length - 1); omega
          _ ≤ countSub k (c :: rest) := by
              rw [countSub_cons, if_pos hs]
      · rw [if_neg hs]
        exact le_trans (ih rest) (countSub_le_cons k c rest)

theorem countNO_le_countSub (k l : Str) : countNO k l ≤ countSub k l :=
  countNOGo_le_countSub k l.length l

theorem startswith_map_preproc :
    ∀ (k : Str), (∀ c ∈ k, isJapRun c = true) →
    ∀ (suf : Str), startswith (suf.map preprocChar) k = true → startswith suf k = true := by
  intro k
  induction k with
  | nil =>
    intro _ suf _
    simp [startswith]
  | cons a as ih =>
    intro hk suf h
    cases suf with
    | nil => simp [startswith] at h
    | cons x xs =>
      rw [List.map_cons] at h
      rw [startswith_cons] at h ⊢
      simp only [Bool.and_eq_true, decide_eq_true_eq] at h ⊢
      obtain ⟨h1, h2⟩ := h
      have hja : isJapRun a = true := hk a (List.mem_cons_self _ _)
      have hx : x = a := by
        unfold preprocChar at h1
        split at h1
        · rw [← h1] at hja
          exact absurd hja (by decide)
        · exact h1
      exact ⟨hx, ih (fun c hc => hk c (List.mem_cons_of_mem _ hc)) xs h2⟩

theorem countSub_preproc_le (k : Str) (hk : ∀ c ∈ k, isJapRun c = true) (t : Str) :
    countSub k (preQ t) ≤ countSub k t := by
  unfold countSub preQ
  rw [List.map_tails, List.countP_map]
  exact List.countP_mono_left (fun suf _ h => startswith_map_preproc k hk suf h)

/-! ## C5: keyword repetition — pipeline membership -/

theorem mem_insertByLen {x y : Str × Nat} :
    ∀ {l : List (Str × Nat)}, y ∈ insertByLen x l ↔ y = x ∨ y ∈ l := by
  intro l
  induction l with
  | nil => simp [insertByLen]
  | cons a as ih =>
    simp only [insertByLen]
    split
    · simp [List.mem_cons]
    · rw [List.mem_cons, ih, List.mem_cons]
      tauto

theorem mem_sortByLenDesc {y : Str × Nat} (l : List (Str × Nat)) :
    y ∈ sortByLenDesc l ↔ y ∈ l := by
  have main : ∀ (m acc : List (Str × Nat)),
      y ∈ m.foldl (fun acc x => insertByLen x acc) acc ↔ y ∈ acc ∨ y ∈ m := by
    intro m
    induction m with
    | nil => intro acc; simp
    | cons x xs ih =>
      intro acc
      rw [List.foldl_cons, ih, mem_insertByLen, List.mem_cons]
      tauto
  unfold sortByLenDesc
  rw [main]
  simp

theorem mem_keywordCounts {t : Str} {p : Str × Nat} (h : p ∈ keywordCounts t) :
    p.1 ∈ keywordCandidates t ∧ p.2 = countNO p.1 (preQ t) ∧ 0 < p.2 := by
  unfold keywordCounts at h
  obtain ⟨a, ha, hfa⟩ := List.mem_filterMap.mp h
  simp only at hfa
  split at hfa
  · rename_i hpos
    have heq := Option.some.inj hfa
    rw [← heq]
    exact ⟨ha, rfl, hpos⟩
  · simp at hfa

theorem keywordCounts_of_mem {t k : Str} (hk : k ∈ keywordCandidates t)
    (hpos : 0 < countNO k (preQ t)) :
    (k, countNO k (preQ t)) ∈ keywordCounts t := by
  unfold keywordCounts
  refine List.mem_filterMap.mpr ⟨k, hk, ?_⟩
  simp only
  rw [if_pos hpos]

theorem mem_repeatedKeywords {t : Str} {p : Str × Nat} :
    p ∈ repeatedKeywords t ↔ p ∈ keywordCounts t ∧ 3 ≤ p.2 := by
  unfold repeatedKeywords
  rw [mem_sortByLenDesc, List.mem_filter]
  simp

theorem mem_prefixFiltered_of {rep : List (Str × Nat)} {p : Str × Nat}
    (hp : p ∈ rep) (hmax : ∀ q ∈ rep, q.1 ≠ p.1 → startswith q.1 p.1 = false) :
    p ∈ prefixFiltered rep := by
  unfold prefixFiltered
  refine List.mem_filter.mpr ⟨hp, ?_⟩
  simp only [Bool.not_eq_true', List.any_eq_false, decide_eq_true_eq]
  intro q hq
  intro hcon
  rw [hmax q hq hcon.1] at hcon
  exact absurd hcon.2 (by simp)

theorem mem_finalKeywords {t : Str} {p : Str × Nat} (h : p ∈ finalKeywords t) :
    p ∈ repeatedKeywords t ∧ p.1 ∉ medical_specialties ∧
    medicalOverlapB p.1 = false := by
  unfold finalKeywords medicalFiltered at h
  have h1 := List.mem_filter.mp h
  have h2 := (List.mem_filter.mp h1.1).1
  have h3 := h1.2
  simp only [decide_eq_true_eq] at h3
  exact ⟨h2, h3.1, h3.2⟩

theorem mem_finalKeywords_of {t : Str} {p : Str × Nat} (hrep : p ∈ repeatedKeywords t)
    (hmax : ∀ q ∈ repeatedKeywords t, q.1 ≠ p.1 → startswith q.1 p.1 = false)
    (hmed1 : p.1 ∉ medical_specialties) (hmed2 : medicalOverlapB p.1 = false) :
    p ∈ finalKeywords t := by
  unfold finalKeywords medicalFiltered
  refine List.mem_filter.mpr ⟨mem_prefixFiltered_of hrep hmax, ?_⟩
  simp [hmed1, hmed2]

/-! ## C5: the claim theorems -/

/-- C5 (amended): every reported keyword occurs at least 3 times in the
original text (so a token occurring exactly twice is never reported) and
is never an allowlisted medical term; and a candidate token counted ≥ 3
times IS reported — flagging the text — provided it is not a proper
prefix of another repeated candidate and neither contains nor is
contained in a medical-specialty term.  (The unrestricted "3 occurrences
⇒ flagged" fails: see `C5_counterexample`.) -/
theorem C5_check_keyword_repetition :
    (∀ (t k : Str), k ∈ keywordCandidates t → 3 ≤ countNO k (preQ t) →
       (∀ q ∈ repeatedKeywords t, q.1 ≠ k → startswith q.1 k = false) →
       k ∉ medical_specialties → medicalOverlapB k = false →
       k ∈ (finalKeywords t).map Prod.fst ∧
       check_keyword_repetition t ≠ [okMark]) ∧
    (∀ (t : Str) (p : Str × Nat), p ∈ finalKeywords t → 3 ≤ countSub p.1 t) ∧
    (∀ (t : Str) (p : Str × Nat), p ∈ finalKeywords t → p.1 ∉ medical_specialties) := by
  refine ⟨?_, ?_, ?_⟩
  · intro t k hk hcnt hmax hmed1 hmed2
    have hmem : (k, countNO k (preQ t)) ∈ finalKeywords t :=
      mem_finalKeywords_of
        (mem_repeatedKeywords.mpr ⟨keywordCounts_of_mem hk (by omega), hcnt⟩)
        hmax hmed1 hmed2
    refine ⟨List.mem_map.mpr ⟨_, hmem, rfl⟩, ?_⟩
    have ht : t ≠ [] := by
      intro h0
      rw [h0, show keywordCandidates ([] : Str) = [] from rfl] at hk
      exact absurd hk (List.not_mem_nil k)
    have hne : finalKeywords t ≠ [] := by
      intro h0
      rw [h0] at hmem
      exact absurd hmem (List.not_mem_nil _)
    have hform : check_keyword_repetition t =
        strL "⚠️ キーワードの重複：" ::
          (finalKeywords t).mapIdx (fun i p =>
            natStr (i + 1) ++ strL ". " ++ [apos] ++ p.1 ++ [apos] ++ strL " が" ++
            natStr p.2 ++ strL "回出現") := by
      unfold check_keyword_repetition
      rw [if_neg ht]
      simp only
      rw [if_neg hne]
    rw [hform]
    intro heq
    exact absurd (List.cons.inj heq).1 (by decide)
  · intro t p hp
    obtain ⟨hrep, _, _⟩ := mem_finalKeywords hp
    obtain ⟨hcounts, h3⟩ := mem_repeatedKeywords.mp hrep
    obtain ⟨hcand, hceq, _⟩ := mem_keywordCounts hcounts
    have hchars := keywordCandidates_chars t p.1 hcand
    calc (3 : Nat) ≤ p.2 := h3
      _ = countNO p.1 (preQ t) := hceq
      _ ≤ countSub p.1 (preQ t) := countNO_le_countSub _ _
      _ ≤ countSub p.1 t := countSub_preproc_le _ hchars t
  · intro t p hp
    exact (mem_finalKeywords hp).2.1

/-- C5 counterexample: `ンプラ` is a 3-character candidate token of the
text, not a stop word, not an allowlisted term, and occurs exactly 3
times — yet the output is the OK marker, because `ンプラ` is a substring
of the allowlisted `インプラント` and the medical-overlap filter drops
it.  The claim "a non-allowlisted non-stop-word 2+ character token
occurring exactly 3 times is reported" is false as stated. -/
theorem C5_counterexample :
    check_keyword_repetition (strL "ンプラ ンプラ ンプラ") = [okMark] ∧
    strL "ンプラ" ∈ keywordCandidates (strL "ンプラ ンプラ ンプラ") ∧
    countSub (strL "ンプラ") (strL "ンプラ ンプラ ンプラ") = 3 ∧
    strL "ンプラ" ∉ medical_specialties ∧
    strL "ンプラ" ∉ stop_words ∧
    (strL "ンプラ").length = 3 :=
  ⟨by decide, by decide, by decide, by decide, by decide, by decide⟩

theorem C5_witness :
    strL "てすと" ∈ (finalKeywords (strL "てすと てすと てすと")).map Prod.fst ∧
    check_keyword_repetition (strL "てすと てすと てすと") ≠ [okMark] :=
  C5_check_keyword_repetition.1 (strL "てすと てすと てすと") (strL "てすと")
    (by decide) (by decide) (by decide) (by decide) (by decide)
